import Mathlib

/-!
Shallow embedding of `src/Routing.py` (class `LoRaNetworkPlanner`) and proofs
about its core pipeline: feasibility-graph construction
(`build_connection_map`), capacitated BFS tree construction
(`find_best_tree`), frequency assignment (`assign_frequencies`) and the
failed-connection store.

Modelling conventions:
* Python dict `self.nodes` (insertion ordered, string keys) is modelled as an
  insertion-ordered key list `names` together with a total map
  `nodes : String → NodeRec`; keys outside `names` map to an irrelevant record.
* Geographic coordinates are idealised as rationals and the floating-point
  `haversine_distance` is abstracted as an explicit parameter
  `dist : ℚ → ℚ → ℚ → ℚ → ℚ` of the graph builder (the builder only compares
  its value with the threshold 5).
* `while` loops are modelled with an explicit fuel parameter; a result `none`
  means the fuel ran out, every terminating run of the Python loop is the
  `some` result for all sufficiently large fuel.
* The `raise Exception(...)` in `assign_frequencies` is modelled with
  `Except String`; printing and interactive input are presentation concerns
  and are not modelled.
-/

namespace Routing

/-- Relay-node record, mirroring the dict built by `add_node`
(`src/Routing.py` lines 59-72). -/
structure NodeRec where
  lat : ℚ := 0
  lon : ℚ := 0
  direct_to_gw : Bool := false
  parent : Option String := none
  children : List String := []
  freq_up : Option Nat := none
  freq_down : Option Nat := none
  visited : Bool := false
deriving DecidableEq

/-- Gateway record, mirroring `get_gateway_data` (lines 35-43). -/
structure GatewayRec where
  lat : ℚ := 0
  lon : ℚ := 0
  children : List String := []
  parent : Option String := none
  freq_down : Option Nat := none
deriving DecidableEq

/-- Planner state (`__init__`, lines 5-9).  `available_frequencies` defaults to
`list(range(16, 31))`; `failed_connections` is a set of canonical pairs. -/
structure Planner where
  names : List String := []
  nodes : String → NodeRec := fun _ => {}
  gateway : Option GatewayRec := none
  available_frequencies : List Nat := List.range' 16 15
  failed_connections : Finset (String × String) := ∅

/-- `tuple(sorted([a, b]))` — the canonical (lexicographic) order used at
lines 91, 131, 162, expressed on the character lists of the two names. -/
def sortPair (a b : String) : String × String :=
  if a.data ≤ b.data then (a, b) else (b, a)

/-- `self.failed_connections.add(tuple(sorted([node1, node2])))` (lines 91-92). -/
def add_failed_connection (p : Planner) (a b : String) : Planner :=
  { p with failed_connections := insert (sortPair a b) p.failed_connections }

/-- Removal of a stored (canonical) pair from the failed set; the menu handler
at lines 106-110 removes the user-selected stored tuple, which is the canonical
form of the pair. -/
def remove_failed_connection (p : Planner) (a b : String) : Planner :=
  { p with failed_connections := p.failed_connections.erase (sortPair a b) }

/-- The membership test used by the graph builder:
`tuple(sorted([x, y])) in self.failed_connections` (lines 131-132, 162-163). -/
def failed_contains (p : Planner) (a b : String) : Prop :=
  sortPair a b ∈ p.failed_connections

instance (p : Planner) (a b : String) : Decidable (failed_contains p a b) := by
  unfold failed_contains; infer_instance

/-- Connection map: `defaultdict(list)` keyed by node name (line 119).  A key
that was never appended to holds `[]`, so the guard
`if current in connection_map` of line 198 is equivalent to iterating its
(empty) list. -/
def CMap := String → List String

def cmEmpty : CMap := fun _ => []

/-- `connection_map[k].append(v)`. -/
def cmAppend (cm : CMap) (k v : String) : CMap :=
  fun s => if s = k then cm s ++ [v] else cm s

/-- The two `append` calls the builder always performs together
(lines 135-136 and 166-167). -/
def addUndirectedEdge (cm : CMap) (a b : String) : CMap :=
  cmAppend (cmAppend cm a b) b a

/-- Condition of line 134: `node['direct_to_gw'] and distance <= 5 and not is_failed`
(gateway threshold is inclusive). -/
def gwCond (dist : ℚ → ℚ → ℚ → ℚ → ℚ) (gw : GatewayRec) (nodes : String → NodeRec)
    (failed : Finset (String × String)) (n : String) : Prop :=
  (nodes n).direct_to_gw = true ∧
    dist gw.lat gw.lon (nodes n).lat (nodes n).lon ≤ 5 ∧
    sortPair "gateway" n ∉ failed

instance (dist gw nodes failed n) : Decidable (gwCond dist gw nodes failed n) := by
  unfold gwCond; infer_instance

/-- Condition of line 165: `distance < 5 and not is_failed` (node threshold is
strict). -/
def pairCond (dist : ℚ → ℚ → ℚ → ℚ → ℚ) (nodes : String → NodeRec)
    (failed : Finset (String × String)) (a b : String) : Prop :=
  dist (nodes a).lat (nodes a).lon (nodes b).lat (nodes b).lon < 5 ∧
    sortPair a b ∉ failed

instance (dist nodes failed a b) : Decidable (pairCond dist nodes failed a b) := by
  unfold pairCond; infer_instance

/-- Node-to-gateway phase of `build_connection_map` (lines 122-146), iterating
the nodes dict in insertion order. -/
def gwPhase (dist : ℚ → ℚ → ℚ → ℚ → ℚ) (gw : GatewayRec) (nodes : String → NodeRec)
    (failed : Finset (String × String)) : List String → CMap → CMap
  | [], cm => cm
  | n :: rest, cm =>
      gwPhase dist gw nodes failed rest
        (if gwCond dist gw nodes failed n then addUndirectedEdge cm "gateway" n else cm)

/-- Inner loop `for j in range(i + 1, len(node_list))` of lines 152-175. -/
def pairInner (dist : ℚ → ℚ → ℚ → ℚ → ℚ) (nodes : String → NodeRec)
    (failed : Finset (String × String)) (n1 : String) : List String → CMap → CMap
  | [], cm => cm
  | n2 :: rest, cm =>
      pairInner dist nodes failed n1 rest
        (if pairCond dist nodes failed n1 n2 then addUndirectedEdge cm n1 n2 else cm)

/-- Outer loop `for i in range(len(node_list))` of lines 151-175. -/
def pairPhase (dist : ℚ → ℚ → ℚ → ℚ → ℚ) (nodes : String → NodeRec)
    (failed : Finset (String × String)) : List String → CMap → CMap
  | [], cm => cm
  | n1 :: rest, cm =>
      pairPhase dist nodes failed rest (pairInner dist nodes failed n1 rest cm)

/-- `build_connection_map` (lines 117-177).  The second return value
`unavailable_connections` is a reporting-only diagnostic (never consumed by
downstream logic) and is not modelled. -/
def build_connection_map (dist : ℚ → ℚ → ℚ → ℚ → ℚ) (p : Planner) : CMap :=
  pairPhase dist p.nodes p.failed_connections p.names
    (match p.gateway with
      | none => cmEmpty
      | some gw => gwPhase dist gw p.nodes p.failed_connections p.names cmEmpty)

/-- Pointwise update of the nodes map: `self.nodes[k] = r` (or in-place
mutation of the record stored at `k`). -/
def setNode (f : String → NodeRec) (k : String) (r : NodeRec) : String → NodeRec :=
  fun s => if s = k then r else f s

/-- State of the BFS of `find_best_tree` (lines 192-217): the nodes map, the
gateway's child list, the FIFO frontier and the `visited_count` counter. -/
structure TreeState where
  nodes : String → NodeRec
  gwChildren : List String
  queue : List String
  visited_count : Nat

/-- Attachment of `neighbor` under `current` (lines 204-209 resp. 212-217):
set parent, mark visited, append to the parent's child list, enqueue. -/
def attachTo (st : TreeState) (current neighbor : String) : TreeState :=
  if current = "gateway" then
    { st with
      nodes := setNode st.nodes neighbor
        { st.nodes neighbor with parent := some "gateway", visited := true },
      gwChildren := st.gwChildren ++ [neighbor],
      queue := st.queue ++ [neighbor],
      visited_count := st.visited_count + 1 }
  else
    let nodes1 := setNode st.nodes neighbor
      { st.nodes neighbor with parent := some current, visited := true }
    let nodes2 := setNode nodes1 current
      { nodes1 current with children := (nodes1 current).children ++ [neighbor] }
    { st with
      nodes := nodes2,
      queue := st.queue ++ [neighbor],
      visited_count := st.visited_count + 1 }

/-- Body of the `for neighbor in connection_map[current]` loop
(lines 199-217): skip the gateway and already-visited neighbours, and attach
only while the dequeued parent holds strictly fewer than 4 children. -/
def stepNeighbor (st : TreeState) (current neighbor : String) : TreeState :=
  if neighbor ≠ "gateway" ∧ (st.nodes neighbor).visited = false then
    if current = "gateway" then
      if st.gwChildren.length < 4 then attachTo st current neighbor else st
    else
      if (st.nodes current).children.length < 4 then attachTo st current neighbor else st
  else st

/-- The full neighbour iteration for one dequeued node. -/
def processList (current : String) : List String → TreeState → TreeState
  | [], st => st
  | n :: rest, st => processList current rest (stepNeighbor st current n)

/-- The `while queue` loop of lines 195-217, with fuel (`none` = fuel ran
out; every terminating run is captured by every sufficiently large fuel). -/
def bfsLoop (cm : CMap) : Nat → TreeState → Option TreeState
  | 0, _ => none
  | fuel + 1, st =>
      match st.queue with
      | [] => some st
      | current :: rest =>
          bfsLoop cm fuel (processList current (cm current) { st with queue := rest })

/-- Reset applied to each stored node at the start of `find_best_tree`
(lines 185-188): `visited`, `parent` and `children` are cleared.  The
frequency fields are not touched there. -/
def resetNodeFields (r : NodeRec) : NodeRec :=
  { r with visited := false, parent := none, children := [] }

/-- The reset block of lines 184-190: every node of the dict is reset and the
gateway's child list is emptied. -/
def reset_node_states (p : Planner) : Planner :=
  { p with
    nodes := fun s => if s ∈ p.names then resetNodeFields (p.nodes s) else p.nodes s,
    gateway := p.gateway.map fun g => { g with children := [] } }

/-- `find_best_tree` (lines 179-227).  With no gateway the source returns
`None` immediately (lines 181-182); otherwise it resets the derived fields,
runs the capacitated BFS from the gateway and returns the list of nodes whose
`visited` flag is still false.  The returned planner carries the mutated
node records and gateway children; the outer `Option` is fuel exhaustion. -/
def find_best_tree (fuel : Nat) (cm : CMap) (p : Planner) :
    Option (Planner × Option (List String)) :=
  match p.gateway with
  | none => some (p, none)
  | some gw =>
      let p1 := reset_node_states p
      match bfsLoop cm fuel
          { nodes := p1.nodes, gwChildren := [], queue := ["gateway"], visited_count := 0 } with
      | none => none
      | some st =>
          let p2 : Planner :=
            { p with
              nodes := st.nodes
              gateway := some { gw with children := st.gwChildren } }
          some (p2, some (p.names.filter fun n => (st.nodes n).visited = false))

/-- Parent pointer used for ancestry statements; the gateway record is created
with `parent: None` and never reassigned, so the chain stops there. -/
def parentOf (p : Planner) (n : String) : Option String :=
  if n = "gateway" then none else (p.nodes n).parent

/-- `parentIter p k n` follows `k` parent links upward from `n`. -/
def parentIter (p : Planner) : Nat → String → Option String
  | 0, n => some n
  | k + 1, n =>
      match parentOf p n with
      | none => none
      | some q => parentIter p k q

/-- The `while queue` loop of `assign_frequencies` (lines 240-258), with
fuel.  `gwDown` is `self.gateway['freq_down']` (set to 3 before the loop and
unchanged during it).  A dequeued node whose `parent` field is unset makes
the source evaluate `self.nodes[None]`, which raises `KeyError`; that raise
is modelled as an error result.  (Lookups of a parent that is a bona fide
name are modelled by the total map.) -/
def assignLoop (gwDown : Option Nat) :
    Nat → (String → NodeRec) → List Nat → List String →
      Option (Except String ((String → NodeRec) × List Nat))
  | 0, _, _, _ => none
  | fuel + 1, nodes, pool, queue =>
      match queue with
      | [] => some (Except.ok (nodes, pool))
      | current :: rest =>
          match (nodes current).parent with
          | none => some (Except.error "KeyError: None")
          | some pq =>
              let fu := if pq = "gateway" then gwDown else (nodes pq).freq_down
              let nodes1 := setNode nodes current { nodes current with freq_up := fu }
              if (nodes1 current).children ≠ [] then
                match pool with
                | [] => some (Except.error "No more frequencies available in pool 16-30")
                | f :: poolRest =>
                    let nodes2 := setNode nodes1 current
                      { nodes1 current with freq_down := some f }
                    assignLoop gwDown fuel nodes2 poolRest (rest ++ (nodes2 current).children)
              else
                assignLoop gwDown fuel nodes1 pool (rest ++ (nodes1 current).children)

/-- `assign_frequencies` (lines 229-258): with no gateway the source returns
immediately (lines 231-232); otherwise the gateway downlink is set to the
constant 3 and the tree is walked breadth-first from the gateway's children,
over a copy of `available_frequencies` as the pool. -/
def assign_frequencies (fuel : Nat) (p : Planner) : Option (Except String Planner) :=
  match p.gateway with
  | none => some (Except.ok p)
  | some gw =>
      let gw1 : GatewayRec := { gw with freq_down := some 3 }
      match assignLoop (some 3) fuel p.nodes p.available_frequencies gw1.children with
      | none => none
      | some (Except.error e) => some (Except.error e)
      | some (Except.ok (nf, _)) =>
          some (Except.ok { p with nodes := nf, gateway := some gw1 })

/-- Substring test (used to state that an error message does not mention a
node's name). -/
def strContains (s sub : String) : Bool :=
  (List.range (s.length + 1)).any fun i => sub.data.isPrefixOf (s.data.drop i)

/-- Invariant carried through the BFS of `find_best_tree`: attached nodes
carry a rank that strictly decreases towards the gateway (hence acyclicity),
frontier members are the gateway or visited stored nodes, and all child lists
respect the capacity 4. -/
def TreeInv (names : List String) (st : TreeState) : Prop :=
  (∃ r : String → Nat, ∀ n ∈ names, ∀ q, (st.nodes n).parent = some q →
      (st.nodes n).visited = true ∧
        (q = "gateway" ∨ (q ∈ names ∧ (st.nodes q).visited = true ∧ r q < r n))) ∧
  (∀ q ∈ st.queue, q = "gateway" ∨ (q ∈ names ∧ (st.nodes q).visited = true)) ∧
  (∀ n ∈ names, (st.nodes n).children.length ≤ 4) ∧
  st.gwChildren.length ≤ 4

/-- `visited` flags only ever grow during the BFS. -/
def visitedMono (f g : String → NodeRec) : Prop :=
  ∀ x, (f x).visited = true → (g x).visited = true

/-- A trivially symmetric stand-in distance function for concrete examples. -/
def distZero : ℚ → ℚ → ℚ → ℚ → ℚ := fun _ _ _ _ => 0

/-- Concrete planner for the C1 witness: node A may use the gateway, B may
not. -/
def pC1 : Planner :=
  { names := ["A", "B"],
    nodes := fun s =>
      if s = "A" then { direct_to_gw := true }
      else if s = "B" then { lon := 1 }
      else {},
    gateway := some {} }

/-- Concrete graph for the C3 witness: gateway-A, gateway-B, A-B. -/
def cmW3 : CMap := fun s =>
  if s = "gateway" then ["A", "B"]
  else if s = "A" then ["gateway", "B"]
  else if s = "B" then ["gateway", "A"]
  else []

def pW3 : Planner :=
  { names := ["A", "B"],
    nodes := fun _ => { direct_to_gw := true },
    gateway := some {} }

def pW3run : Option (Planner × Option (List String)) := find_best_tree 10 cmW3 pW3

def pW3res : Planner :=
  match pW3run with
  | some (q, _) => q
  | none => pW3

def pW3unr : List String :=
  match pW3run with
  | some (_, some u) => u
  | _ => []

/-- Concrete graph for the C4 counterexample: five nodes, each adjacent only
to the gateway. -/
def cmC4 : CMap := fun s =>
  if s = "gateway" then ["A", "B", "C", "D", "E"]
  else if s ∈ ["A", "B", "C", "D", "E"] then ["gateway"]
  else []

def pC4 : Planner :=
  { names := ["A", "B", "C", "D", "E"],
    nodes := fun _ => { direct_to_gw := true },
    gateway := some {} }

def pC4run : Option (Planner × Option (List String)) := find_best_tree 10 cmC4 pC4

/-- Concrete tree for the C2 witness: gateway → N1 → N2. -/
def pW2 : Planner :=
  { names := ["N1", "N2"],
    nodes := fun s =>
      if s = "N1" then { parent := some "gateway", children := ["N2"] }
      else if s = "N2" then { parent := some "N1" }
      else {},
    gateway := some { children := ["N1"] },
    available_frequencies := [16, 17] }

def pW2run : Option (Except String Planner) := assign_frequencies 10 pW2

def pW2res : Planner :=
  match pW2run with
  | some (Except.ok q) => q
  | _ => pW2

/-- Concrete tree for the C5 counterexample: chain gateway → N1 → N2 → N3
with a pool holding a single frequency, so that the second branching node
(N2) cannot be served. -/
def pC5 : Planner :=
  { names := ["N1", "N2", "N3"],
    nodes := fun s =>
      if s = "N1" then { parent := some "gateway", children := ["N2"] }
      else if s = "N2" then { parent := some "N1", children := ["N3"] }
      else if s = "N3" then { parent := some "N2" }
      else {},
    gateway := some { children := ["N1"] },
    available_frequencies := [16] }

/-- Concrete mid-walk nodes map for the C5-amended witness. -/
def nodesW5 : String → NodeRec := fun s =>
  if s = "X" then { parent := some "gateway", children := ["Y"] } else {}

/-- Concrete single-node network for the C7 counterexample. -/
def cmC7 : CMap := fun s =>
  if s = "gateway" then ["A"]
  else if s = "A" then ["gateway"]
  else []

def pC7 : Planner :=
  { names := ["A"],
    nodes := fun s => if s = "A" then { direct_to_gw := true } else {},
    gateway := some {} }

/-- State after a first full planning run on `pC7` (tree build, then
frequency assignment): node A ends with `freq_up = 3`. -/
def pC7tree : Planner :=
  match find_best_tree 5 cmC7 pC7 with
  | some (q, _) => q
  | none => pC7

def pC7run1 : Planner :=
  match assign_frequencies 5 pC7tree with
  | some (Except.ok q) => q
  | _ => pC7tree

/-- Planner with no gateway set, for C8. -/
def pC8 : Planner := { names := ["A"] }

/-- Concrete BFS state for the C10 witness: node F is at capacity, node G has
room; E is a fresh neighbour. -/
def stW10 : TreeState :=
  { nodes := fun s =>
      if s = "F" then { children := ["A", "B", "C", "D"], visited := true }
      else if s = "G" then { visited := true }
      else {},
    gwChildren := [],
    queue := [],
    visited_count := 0 }

theorem sortPair_comm (a b : String) : sortPair a b = sortPair b a := by
  unfold sortPair
  by_cases hab : a.data ≤ b.data <;> by_cases hba : b.data ≤ a.data <;>
    simp [hab, hba]
  · have h : a.data = b.data := le_antisymm hab hba
    have h2 : a = b := by cases a; cases b; exact congrArg String.mk h
    exact ⟨h2, h2.symm⟩
  · exact absurd (le_total a.data b.data) (by simp [hab, hba])

theorem mem_cmAppend {cm : CMap} {k v s y : String} :
    y ∈ cmAppend cm k v s ↔ y ∈ cm s ∨ (s = k ∧ y = v) := by
  unfold cmAppend
  by_cases h : s = k <;> simp [h]

theorem mem_addUndirectedEdge {cm : CMap} {a b s y : String} :
    y ∈ addUndirectedEdge cm a b s ↔
      y ∈ cm s ∨ (s = a ∧ y = b) ∨ (s = b ∧ y = a) := by
  unfold addUndirectedEdge
  rw [mem_cmAppend, mem_cmAppend]
  tauto

theorem mem_gwPhase (dist : ℚ → ℚ → ℚ → ℚ → ℚ) (gw : GatewayRec)
    (nodes : String → NodeRec) (failed : Finset (String × String))
    (l : List String) (cm : CMap) (s y : String) :
    y ∈ gwPhase dist gw nodes failed l cm s ↔
      y ∈ cm s ∨ ∃ n ∈ l, gwCond dist gw nodes failed n ∧
        ((s = "gateway" ∧ y = n) ∨ (s = n ∧ y = "gateway")) := by
  induction l generalizing cm with
  | nil => simp [gwPhase]
  | cons n rest ih =>
      rw [gwPhase, ih]
      by_cases h : gwCond dist gw nodes failed n
      · simp only [h, if_pos, mem_addUndirectedEdge, List.mem_cons]
        constructor
        · rintro ((hc | he) | ⟨x, hx, hcx, hd⟩)
          · exact Or.inl hc
          · exact Or.inr ⟨n, Or.inl rfl, h, he⟩
          · exact Or.inr ⟨x, Or.inr hx, hcx, hd⟩
        · rintro (hc | ⟨x, (rfl | hx), hcx, hd⟩)
          · exact Or.inl (Or.inl hc)
          · exact Or.inl (Or.inr hd)
          · exact Or.inr ⟨x, hx, hcx, hd⟩
      · simp only [h, if_neg, not_false_iff, List.mem_cons]
        constructor
        · rintro (hc | ⟨x, hx, hcx, hd⟩)
          · exact Or.inl hc
          · exact Or.inr ⟨x, Or.inr hx, hcx, hd⟩
        · rintro (hc | ⟨x, (rfl | hx), hcx, hd⟩)
          · exact Or.inl hc
          · exact absurd hcx h
          · exact Or.inr ⟨x, hx, hcx, hd⟩

theorem mem_pairInner (dist : ℚ → ℚ → ℚ → ℚ → ℚ) (nodes : String → NodeRec)
    (failed : Finset (String × String)) (n1 : String)
    (l : List String) (cm : CMap) (s y : String) :
    y ∈ pairInner dist nodes failed n1 l cm s ↔
      y ∈ cm s ∨ ∃ n2 ∈ l, pairCond dist nodes failed n1 n2 ∧
        ((s = n1 ∧ y = n2) ∨ (s = n2 ∧ y = n1)) := by
  induction l generalizing cm with
  | nil => simp [pairInner]
  | cons n rest ih =>
      rw [pairInner, ih]
      by_cases h : pairCond dist nodes failed n1 n
      · simp only [h, if_pos, mem_addUndirectedEdge, List.mem_cons]
        constructor
        · rintro ((hc | he) | ⟨x, hx, hcx, hd⟩)
          · exact Or.inl hc
          · exact Or.inr ⟨n, Or.inl rfl, h, he⟩
          · exact Or.inr ⟨x, Or.inr hx, hcx, hd⟩
        · rintro (hc | ⟨x, (rfl | hx), hcx, hd⟩)
          · exact Or.inl (Or.inl hc)
          · exact Or.inl (Or.inr hd)
          · exact Or.inr ⟨x, hx, hcx, hd⟩
      · simp only [h, if_neg, not_false_iff, List.mem_cons]
        constructor
        · rintro (hc | ⟨x, hx, hcx, hd⟩)
          · exact Or.inl hc
          · exact Or.inr ⟨x, Or.inr hx, hcx, hd⟩
        · rintro (hc | ⟨x, (rfl | hx), hcx, hd⟩)
          · exact Or.inl hc
          · exact absurd hcx h
          · exact Or.inr ⟨x, hx, hcx, hd⟩

theorem pair_sublist_cons {a b c : String} {l : List String} :
    List.Sublist [a, b] (c :: l) ↔ List.Sublist [a, b] l ∨ (a = c ∧ b ∈ l) := by
  constructor
  · intro h
    cases h with
    | cons _ h => exact Or.inl h
    | cons₂ _ h => exact Or.inr ⟨rfl, List.singleton_sublist.mp h⟩
  · rintro (h | ⟨rfl, hb⟩)
    · exact h.cons c
    · exact (List.singleton_sublist.mpr hb).cons₂ a

theorem mem_pairPhase (dist : ℚ → ℚ → ℚ → ℚ → ℚ) (nodes : String → NodeRec)
    (failed : Finset (String × String))
    (l : List String) (cm : CMap) (s y : String) :
    y ∈ pairPhase dist nodes failed l cm s ↔
      y ∈ cm s ∨ ∃ a b, List.Sublist [a, b] l ∧ pairCond dist nodes failed a b ∧
        ((s = a ∧ y = b) ∨ (s = b ∧ y = a)) := by
  induction l generalizing cm with
  | nil => simp [pairPhase]
  | cons n rest ih =>
      rw [pairPhase, ih, mem_pairInner]
      constructor
      · rintro ((hc | ⟨b, hb, hcb, hd⟩) | ⟨a, b, hab, hcab, hd⟩)
        · exact Or.inl hc
        · exact Or.inr ⟨n, b, pair_sublist_cons.mpr (Or.inr ⟨rfl, hb⟩), hcb, hd⟩
        · exact Or.inr ⟨a, b, hab.cons n, hcab, hd⟩
      · rintro (hc | ⟨a, b, hab, hcab, hd⟩)
        · exact Or.inl (Or.inl hc)
        · rcases pair_sublist_cons.mp hab with hab | ⟨rfl, hb⟩
          · exact Or.inr ⟨a, b, hab, hcab, hd⟩
          · exact Or.inl (Or.inr ⟨b, hb, hcab, hd⟩)

/-- Full characterisation of edge membership in the built connection map. -/
theorem mem_build_connection_map (dist : ℚ → ℚ → ℚ → ℚ → ℚ) (p : Planner)
    (s y : String) :
    y ∈ build_connection_map dist p s ↔
      (∃ gw, p.gateway = some gw ∧ ∃ n ∈ p.names,
          gwCond dist gw p.nodes p.failed_connections n ∧
          ((s = "gateway" ∧ y = n) ∨ (s = n ∧ y = "gateway"))) ∨
      (∃ a b, List.Sublist [a, b] p.names ∧ pairCond dist p.nodes p.failed_connections a b ∧
          ((s = a ∧ y = b) ∨ (s = b ∧ y = a))) := by
  unfold build_connection_map
  cases hg : p.gateway with
  | none => simp [mem_pairPhase, cmEmpty]
  | some gw => simp [mem_pairPhase, mem_gwPhase, cmEmpty, hg]

theorem sublist_pair_of_mem {a b : String} {l : List String} (hab : a ≠ b)
    (ha : a ∈ l) (hb : b ∈ l) :
    List.Sublist [a, b] l ∨ List.Sublist [b, a] l := by
  induction l with
  | nil => cases ha
  | cons c rest ih =>
      rcases List.mem_cons.mp ha with rfl | ha2
      · have hb2 : b ∈ rest := by
          rcases List.mem_cons.mp hb with rfl | hb2
          · exact absurd rfl hab
          · exact hb2
        exact Or.inl ((List.singleton_sublist.mpr hb2).cons₂ a)
      · rcases List.mem_cons.mp hb with rfl | hb2
        · exact Or.inr ((List.singleton_sublist.mpr ha2).cons₂ b)
        · rcases ih ha2 hb2 with h | h
          · exact Or.inl (h.cons c)
          · exact Or.inr (h.cons c)

/-- C9: the failed-connection store keys every pair canonically (sorted
order), so immediately after adding the pair (a,b) both membership queries
(a,b) and (b,a) hold, and after a subsequent removal of that pair both
fail. -/
theorem c9_failed_pair_ops (p : Planner) (a b : String) :
    failed_contains (add_failed_connection p a b) a b ∧
    failed_contains (add_failed_connection p a b) b a ∧
    ¬ failed_contains (remove_failed_connection (add_failed_connection p a b) a b) a b ∧
    ¬ failed_contains (remove_failed_connection (add_failed_connection p a b) a b) b a := by
  refine ⟨?_, ?_, ?_, ?_⟩
  · exact Finset.mem_insert_self _ _
  · show sortPair b a ∈ insert (sortPair a b) p.failed_connections
    rw [← sortPair_comm a b]
    exact Finset.mem_insert_self _ _
  · exact Finset.not_mem_erase _ _
  · show sortPair b a ∈ (insert (sortPair a b) p.failed_connections).erase (sortPair a b) → False
    rw [← sortPair_comm a b]
    exact Finset.not_mem_erase _ _

/-- C6: every built feasibility graph has symmetric edges, for all identities
including the gateway id: `B ∈ graph[A] ⟺ A ∈ graph[B]` (the builder inserts
both directions together). -/
theorem c6_symmetry (dist : ℚ → ℚ → ℚ → ℚ → ℚ) (p : Planner) (a b : String) :
    b ∈ build_connection_map dist p a ↔ a ∈ build_connection_map dist p b := by
  rw [mem_build_connection_map, mem_build_connection_map]
  constructor <;>
    · rintro (⟨gw, hg, n, hn, hc, hd⟩ | ⟨x, y2, hs, hc, hd⟩)
      · exact Or.inl ⟨gw, hg, n, hn, hc, by tauto⟩
      · exact Or.inr ⟨x, y2, hs, hc, by tauto⟩

/-- C1: the builder creates a gateway-node edge iff the node's direct-gateway
flag is true AND the distance is at most 5 (inclusive) AND the canonical pair
is not in the failed set; for every unordered pair of distinct nodes it
creates an edge iff the distance is strictly below 5 AND the canonical pair
is not in the failed set. -/
theorem c1_edge_conditions (dist : ℚ → ℚ → ℚ → ℚ → ℚ) (p : Planner) (gw : GatewayRec)
    (hg : p.gateway = some gw)
    (hgwn : "gateway" ∉ p.names)
    (hsym : ∀ la lo lb lob, dist la lo lb lob = dist lb lob la lo) :
    (∀ n ∈ p.names,
      ("gateway" ∈ build_connection_map dist p n ↔
        ((p.nodes n).direct_to_gw = true ∧
          dist gw.lat gw.lon (p.nodes n).lat (p.nodes n).lon ≤ 5 ∧
          sortPair "gateway" n ∉ p.failed_connections))) ∧
    (∀ a ∈ p.names, ∀ b ∈ p.names, a ≠ b →
      (b ∈ build_connection_map dist p a ↔
        (dist (p.nodes a).lat (p.nodes a).lon (p.nodes b).lat (p.nodes b).lon < 5 ∧
          sortPair a b ∉ p.failed_connections))) := by
  have hpair : ∀ a b, pairCond dist p.nodes p.failed_connections a b ↔
      pairCond dist p.nodes p.failed_connections b a := by
    intro a b
    unfold pairCond
    rw [hsym (p.nodes a).lat (p.nodes a).lon (p.nodes b).lat (p.nodes b).lon,
      sortPair_comm a b]
  constructor
  · intro n hn
    rw [mem_build_connection_map]
    constructor
    · rintro (⟨gw2, hg2, x, hx, hc, hd⟩ | ⟨x, y2, hs, hc, hd⟩)
      · rcases hd with ⟨h1, h2⟩ | ⟨h1, h2⟩
        · exact absurd (h1 ▸ hn) hgwn
        · rw [hg] at hg2
          injection hg2 with hg3
          subst h1
          rw [hg3]
          exact hc
      · have hx2 : x ∈ p.names := hs.subset (List.mem_cons_self x [y2])
        have hy2 : y2 ∈ p.names := hs.subset (by simp)
        rcases hd with ⟨h1, h2⟩ | ⟨h1, h2⟩
        · exact absurd (h2 ▸ hy2) hgwn
        · exact absurd (h2 ▸ hx2) hgwn
    · rintro ⟨h1, h2, h3⟩
      exact Or.inl ⟨gw, hg, n, hn, ⟨h1, h2, h3⟩, Or.inr ⟨rfl, rfl⟩⟩
  · intro a ha b hb hab
    rw [mem_build_connection_map]
    constructor
    · rintro (⟨gw2, hg2, x, hx, hc, hd⟩ | ⟨x, y2, hs, hc, hd⟩)
      · rcases hd with ⟨h1, h2⟩ | ⟨h1, h2⟩
        · exact absurd (h1 ▸ ha) hgwn
        · exact absurd (h2 ▸ hb) hgwn
      · rcases hd with ⟨h1, h2⟩ | ⟨h1, h2⟩
        · subst h1; subst h2
          exact hc
        · subst h1; subst h2
          exact (hpair a b).mpr hc
    · rintro ⟨h1, h2⟩
      rcases sublist_pair_of_mem hab ha hb with hs | hs
      · exact Or.inr ⟨a, b, hs, ⟨h1, h2⟩, Or.inl ⟨rfl, rfl⟩⟩
      · exact Or.inr ⟨b, a, hs, (hpair a b).mp ⟨h1, h2⟩, Or.inr ⟨rfl, rfl⟩⟩

theorem c1_witness :
    ("gateway" ∈ build_connection_map distZero pC1 "A" ↔
      ((pC1.nodes "A").direct_to_gw = true ∧
        distZero ({} : GatewayRec).lat ({} : GatewayRec).lon
          (pC1.nodes "A").lat (pC1.nodes "A").lon ≤ 5 ∧
        sortPair "gateway" "A" ∉ pC1.failed_connections)) ∧
    ("B" ∈ build_connection_map distZero pC1 "A" ↔
      (distZero (pC1.nodes "A").lat (pC1.nodes "A").lon
          (pC1.nodes "B").lat (pC1.nodes "B").lon < 5 ∧
        sortPair "A" "B" ∉ pC1.failed_connections)) := by
  have h := c1_edge_conditions distZero pC1 {} rfl (by decide) (fun _ _ _ _ => rfl)
  exact ⟨h.1 "A" (by decide), h.2 "A" (by decide) "B" (by decide) (by decide)⟩

/-- C7 (amended): the reset step at the start of every tree-building run
clears `visited`, `parent` and `children` of every stored node and the
gateway's child list, but leaves `freq_up` and `freq_down` unchanged, so
frequency values assigned in a previous run survive the reset. -/
theorem c7_amended_reset (p : Planner) :
    (∀ n ∈ p.names,
      ((reset_node_states p).nodes n).visited = false ∧
      ((reset_node_states p).nodes n).parent = none ∧
      ((reset_node_states p).nodes n).children = [] ∧
      ((reset_node_states p).nodes n).freq_up = (p.nodes n).freq_up ∧
      ((reset_node_states p).nodes n).freq_down = (p.nodes n).freq_down) ∧
    (∀ g, p.gateway = some g →
      (reset_node_states p).gateway = some { g with children := [] }) := by
  constructor
  · intro n hn
    simp [reset_node_states, hn, resetNodeFields]
  · intro g hg
    simp [reset_node_states, hg]

/-- C7 is false as stated: after a genuine first planning run on `pC7` (in
which node A is attached and receives `freq_up = 3`), the reset step of the
next tree build leaves that uplink frequency in place, so a derived field
does retain a value from a previous run. -/
theorem c7_counterexample :
    ((reset_node_states pC7run1).nodes "A").freq_up = some 3 ∧
    (pC7.nodes "A").freq_up = none :=
  ⟨by decide, by decide⟩

theorem c7_amended_witness :
    ((reset_node_states pC7run1).nodes "A").visited = false ∧
    ((reset_node_states pC7run1).nodes "A").parent = none ∧
    ((reset_node_states pC7run1).nodes "A").children = [] ∧
    ((reset_node_states pC7run1).nodes "A").freq_up = (pC7run1.nodes "A").freq_up ∧
    ((reset_node_states pC7run1).nodes "A").freq_down = (pC7run1.nodes "A").freq_down :=
  (c7_amended_reset pC7run1).1 "A" (by decide)

/-- C8 (amended): invoked before a gateway has been set, `find_best_tree`
returns `None` (leaving the planner untouched) and `assign_frequencies`
returns immediately without any effect; neither raises or reports an
error. -/
theorem c8_amended_no_gateway (fuelT fuelA : Nat) (cm : CMap) (p : Planner)
    (h : p.gateway = none) :
    find_best_tree fuelT cm p = some (p, none) ∧
    assign_frequencies fuelA p = some (Except.ok p) := by
  constructor
  · simp [find_best_tree, h]
  · simp [assign_frequencies, h]

/-- C8 is false as stated: with no gateway set, both operations return
normally (a plain `None` result resp. an unchanged planner), not a failure
report. -/
theorem c8_counterexample :
    find_best_tree 5 cmEmpty pC8 = some (pC8, none) ∧
    assign_frequencies 5 pC8 = some (Except.ok pC8) :=
  ⟨rfl, rfl⟩

theorem c8_amended_witness :
    find_best_tree 7 cmEmpty pC8 = some (pC8, none) ∧
    assign_frequencies 7 pC8 = some (Except.ok pC8) :=
  c8_amended_no_gateway 7 7 cmEmpty pC8 rfl

/-- C5 (amended): when a dequeued node has at least one child and the pool is
empty, the walk fails by raising (rather than silently skipping), but the
exception carries the fixed message naming the pool range — it does not
report the identity of the node that could not be served. -/
theorem c5_amended_exhaustion (gwDown : Option Nat) (fuel : Nat)
    (nodes : String → NodeRec) (current : String) (rest : List String) (pq : String)
    (hp : (nodes current).parent = some pq)
    (hch : (nodes current).children ≠ []) :
    assignLoop gwDown (fuel + 1) nodes [] (current :: rest) =
      some (Except.error "No more frequencies available in pool 16-30") := by
  simp only [assignLoop]
  rw [hp]
  simp [setNode, hch]

/-- C5 is false as stated: on a concrete run where node N2 cannot be served,
the raised message is the fixed pool-range string and does not contain the
name N2 (or any node identity). -/
theorem c5_counterexample :
    assign_frequencies 10 pC5 =
      some (Except.error "No more frequencies available in pool 16-30") ∧
    strContains "No more frequencies available in pool 16-30" "N2" = false :=
  ⟨rfl, by decide⟩

theorem c5_amended_witness :
    assignLoop (some 3) (5 + 1) nodesW5 [] ["X"] =
      some (Except.error "No more frequencies available in pool 16-30") :=
  c5_amended_exhaustion (some 3) 5 nodesW5 "X" [] "gateway" rfl (by decide)

/-- C10: a neighbour considered while the dequeued node's child list is at
the capacity limit is skipped with no state change at all (in particular it
is not marked visited and gets no parent), so it remains eligible; and
whenever a dequeued node with spare capacity and a graph edge to it reaches
it while it is still unvisited, it is attached as that node's child (stated
for both a gateway and a non-gateway parent). -/
theorem c10_capacity_skip (st : TreeState) (current neighbor : String)
    (hng : neighbor ≠ "gateway") (hnv : (st.nodes neighbor).visited = false) :
    (current = "gateway" → ¬ st.gwChildren.length < 4 →
      stepNeighbor st current neighbor = st) ∧
    (current ≠ "gateway" → ¬ (st.nodes current).children.length < 4 →
      stepNeighbor st current neighbor = st) ∧
    (current = "gateway" → st.gwChildren.length < 4 →
      ((stepNeighbor st current neighbor).nodes neighbor).visited = true ∧
      ((stepNeighbor st current neighbor).nodes neighbor).parent = some "gateway" ∧
      (stepNeighbor st current neighbor).gwChildren = st.gwChildren ++ [neighbor] ∧
      (stepNeighbor st current neighbor).queue = st.queue ++ [neighbor]) ∧
    (current ≠ "gateway" → (st.nodes current).visited = true →
      (st.nodes current).children.length < 4 →
      ((stepNeighbor st current neighbor).nodes neighbor).visited = true ∧
      ((stepNeighbor st current neighbor).nodes neighbor).parent = some current ∧
      ((stepNeighbor st current neighbor).nodes current).children =
        (st.nodes current).children ++ [neighbor] ∧
      (stepNeighbor st current neighbor).queue = st.queue ++ [neighbor]) := by
  refine ⟨?_, ?_, ?_, ?_⟩
  · intro hc hcap
    simp [stepNeighbor, hng, hnv, hc, hcap]
  · intro hc hcap
    simp [stepNeighbor, hng, hnv, hc, hcap]
  · intro hc hcap
    subst hc
    simp [stepNeighbor, hng, hnv, hcap, attachTo, setNode]
  · intro hc hv hcap
    have hcn : current ≠ neighbor := by
      intro h
      rw [h, hnv] at hv
      cases hv
    simp [stepNeighbor, hng, hnv, hc, hcap, attachTo, setNode, hcn, Ne.symm hcn]

theorem c10_witness :
    stepNeighbor stW10 "F" "E" = stW10 ∧
    (((stepNeighbor stW10 "G" "E").nodes "E").visited = true ∧
      ((stepNeighbor stW10 "G" "E").nodes "E").parent = some "G" ∧
      ((stepNeighbor stW10 "G" "E").nodes "G").children =
        (stW10.nodes "G").children ++ ["E"] ∧
      (stepNeighbor stW10 "G" "E").queue = stW10.queue ++ ["E"]) := by
  constructor
  · exact (c10_capacity_skip stW10 "F" "E" (by decide) (by decide)).2.1
      (by decide) (by decide)
  · exact (c10_capacity_skip stW10 "G" "E" (by decide) (by decide)).2.2.2
      (by decide) (by decide) (by decide)

theorem setNode_same (f : String → NodeRec) (k : String) (r : NodeRec) :
    setNode f k r k = r := by
  simp [setNode]

theorem setNode_ne (f : String → NodeRec) (k : String) (r : NodeRec) {s : String}
    (h : s ≠ k) : setNode f k r s = f s := by
  simp [setNode, h]

theorem stepNeighbor_inv (names : List String) (st : TreeState)
    (current neighbor : String)
    (hni : neighbor = "gateway" ∨ neighbor ∈ names)
    (hcur : current = "gateway" ∨ (current ∈ names ∧ (st.nodes current).visited = true))
    (hinv : TreeInv names st) :
    TreeInv names (stepNeighbor st current neighbor) ∧
      visitedMono st.nodes (stepNeighbor st current neighbor).nodes := by
  obtain ⟨⟨r, hrank⟩, hqueue, hcap, hgcap⟩ := hinv
  by_cases hgate : neighbor ≠ "gateway" ∧ (st.nodes neighbor).visited = false
  case neg =>
    rw [stepNeighbor, if_neg hgate]
    exact ⟨⟨⟨r, hrank⟩, hqueue, hcap, hgcap⟩, fun x hx => hx⟩
  case pos =>
  obtain ⟨hng, hnv⟩ := hgate
  have hnn : neighbor ∈ names := hni.resolve_left hng
  by_cases hcg : current = "gateway"
  · by_cases hcap4 : st.gwChildren.length < 4
    · -- attach to the gateway
      subst hcg
      have hstep : stepNeighbor st "gateway" neighbor =
          { st with
            nodes := setNode st.nodes neighbor
              { st.nodes neighbor with parent := some "gateway", visited := true },
            gwChildren := st.gwChildren ++ [neighbor],
            queue := st.queue ++ [neighbor],
            visited_count := st.visited_count + 1 } := by
        rw [stepNeighbor, if_pos ⟨hng, hnv⟩, if_pos rfl, if_pos hcap4, attachTo, if_pos rfl]
      rw [hstep]
      have hmono : visitedMono st.nodes
          (setNode st.nodes neighbor
            { st.nodes neighbor with parent := some "gateway", visited := true }) := by
        intro x hx
        by_cases h1 : x = neighbor
        · subst h1; simp [setNode_same]
        · rw [setNode_ne _ _ _ h1]; exact hx
      refine ⟨⟨⟨r, ?_⟩, ?_, ?_, ?_⟩, hmono⟩
      · intro n hn q hp
        dsimp only at hp ⊢
        by_cases h1 : n = neighbor
        · subst h1
          simp only [setNode_same] at hp ⊢
          simp only [Option.some.injEq] at hp
          subst hp
          exact ⟨trivial, Or.inl rfl⟩
        · rw [setNode_ne _ _ _ h1] at hp
          obtain ⟨hv, hq⟩ := hrank n hn q hp
          refine ⟨by rw [setNode_ne _ _ _ h1]; exact hv, ?_⟩
          rcases hq with hq | ⟨hq1, hq2, hq3⟩
          · exact Or.inl hq
          · exact Or.inr ⟨hq1, hmono q hq2, hq3⟩
      · intro q hq
        dsimp only at hq ⊢
        rcases List.mem_append.mp hq with hq | hq
        · rcases hqueue q hq with h | ⟨h1, h2⟩
          · exact Or.inl h
          · exact Or.inr ⟨h1, hmono q h2⟩
        · have hq2 : q = neighbor := by simpa using hq
          subst hq2
          exact Or.inr ⟨hnn, by simp [setNode_same]⟩
      · intro n hn
        dsimp only
        by_cases h1 : n = neighbor
        · subst h1; simp only [setNode_same]; exact hcap _ hnn
        · rw [setNode_ne _ _ _ h1]; exact hcap n hn
      · dsimp only
        simp only [List.length_append, List.length_singleton]
        omega
    · -- the gateway is full: skip, no state change
      rw [stepNeighbor, if_pos ⟨hng, hnv⟩, if_pos hcg, if_neg hcap4]
      exact ⟨⟨⟨r, hrank⟩, hqueue, hcap, hgcap⟩, fun x hx => hx⟩
  · obtain ⟨hcm, hcv⟩ := hcur.resolve_left hcg
    by_cases hcap4 : (st.nodes current).children.length < 4
    · -- attach to an ordinary node
      have hcn : current ≠ neighbor := by
        intro h
        rw [h, hnv] at hcv
        cases hcv
      have hstep : stepNeighbor st current neighbor =
          { st with
            nodes := setNode
              (setNode st.nodes neighbor
                { st.nodes neighbor with parent := some current, visited := true })
              current
              { (setNode st.nodes neighbor
                  { st.nodes neighbor with parent := some current, visited := true })
                  current with
                children := ((setNode st.nodes neighbor
                  { st.nodes neighbor with parent := some current, visited := true })
                  current).children ++ [neighbor] },
            queue := st.queue ++ [neighbor],
            visited_count := st.visited_count + 1 } := by
        rw [stepNeighbor, if_pos ⟨hng, hnv⟩, if_neg hcg, if_pos hcap4, attachTo, if_neg hcg]
      have hN1c : (setNode st.nodes neighbor
          { st.nodes neighbor with parent := some current, visited := true })
          current = st.nodes current := setNode_ne _ _ _ hcn
      rw [hstep, hN1c]
      -- abbreviations for the two-stage update
      have hmono : visitedMono st.nodes
          (setNode
            (setNode st.nodes neighbor
              { st.nodes neighbor with parent := some current, visited := true })
            current
            { st.nodes current with
              children := (st.nodes current).children ++ [neighbor] }) := by
        intro x hx
        by_cases h1 : x = current
        · subst h1; simp only [setNode_same]; exact hx
        · rw [setNode_ne _ _ _ h1]
          by_cases h2 : x = neighbor
          · subst h2; simp [setNode_same]
          · rw [setNode_ne _ _ _ h2]; exact hx
      refine ⟨⟨⟨fun x => if x = neighbor then r current + 1 else r x, ?_⟩, ?_, ?_, hgcap⟩,
        hmono⟩
      · intro n hn q hp
        dsimp only at hp ⊢
        by_cases h1 : n = current
        · rw [h1] at hp hn ⊢
          simp only [setNode_same, setNode_ne _ _ _ hcn] at hp
          obtain ⟨hv, hq⟩ := hrank current hn q hp
          refine ⟨by simp [setNode_same, setNode_ne _ _ _ hcn, hcv], ?_⟩
          rcases hq with hq | ⟨hq1, hq2, hq3⟩
          · exact Or.inl hq
          · have hqne : q ≠ neighbor := by
              intro h
              rw [h, hnv] at hq2
              cases hq2
            refine Or.inr ⟨hq1, hmono q hq2, ?_⟩
            rw [if_neg hqne, if_neg hcn]
            exact hq3
        · rw [setNode_ne _ _ _ h1] at hp
          by_cases h2 : n = neighbor
          · subst h2
            simp only [setNode_same] at hp
            simp only [Option.some.injEq] at hp
            subst hp
            refine ⟨by simp [setNode_ne _ _ _ h1, setNode_same], ?_⟩
            refine Or.inr ⟨hcm, by simp only [setNode_same, setNode_ne _ _ _ hcn]; exact hcv, ?_⟩
            rw [if_pos rfl, if_neg hcn]
            omega
          · rw [setNode_ne _ _ _ h2] at hp
            obtain ⟨hv, hq⟩ := hrank n hn q hp
            refine ⟨by rw [setNode_ne _ _ _ h1, setNode_ne _ _ _ h2]; exact hv, ?_⟩
            rcases hq with hq | ⟨hq1, hq2, hq3⟩
            · exact Or.inl hq
            · have hqne : q ≠ neighbor := by
                intro h
                rw [h, hnv] at hq2
                cases hq2
              refine Or.inr ⟨hq1, hmono q hq2, ?_⟩
              rw [if_neg hqne, if_neg h2]
              exact hq3
      · intro q hq
        dsimp only at hq ⊢
        rcases List.mem_append.mp hq with hq | hq
        · rcases hqueue q hq with h | ⟨h1, h2⟩
          · exact Or.inl h
          · exact Or.inr ⟨h1, hmono q h2⟩
        · have hq2 : q = neighbor := by simpa using hq
          subst hq2
          exact Or.inr ⟨hnn, by simp [setNode_ne _ _ _ (Ne.symm hcn), setNode_same]⟩
      · intro n hn
        dsimp only
        by_cases h1 : n = current
        · subst h1
          simp only [setNode_same]
          simp only [List.length_append, List.length_singleton]
          omega
        · rw [setNode_ne _ _ _ h1]
          by_cases h2 : n = neighbor
          · subst h2; simp only [setNode_same]; exact hcap _ hnn
          · rw [setNode_ne _ _ _ h2]; exact hcap n hn
    · -- the current node is full: skip, no state change
      rw [stepNeighbor, if_pos ⟨hng, hnv⟩, if_neg hcg, if_neg hcap4]
      exact ⟨⟨⟨r, hrank⟩, hqueue, hcap, hgcap⟩, fun x hx => hx⟩

theorem processList_inv (names : List String) (current : String) :
    ∀ (l : List String) (st : TreeState),
      (∀ n ∈ l, n = "gateway" ∨ n ∈ names) →
      (current = "gateway" ∨ (current ∈ names ∧ (st.nodes current).visited = true)) →
      TreeInv names st →
      TreeInv names (processList current l st) ∧
        visitedMono st.nodes (processList current l st).nodes := by
  intro l
  induction l with
  | nil =>
      intro st _ _ hinv
      exact ⟨hinv, fun x hx => hx⟩
  | cons n rest ih =>
      intro st hl hcur hinv
      obtain ⟨hinv2, hmono⟩ := stepNeighbor_inv names st current n (hl n (by simp)) hcur hinv
      have hcur2 : current = "gateway" ∨
          (current ∈ names ∧ ((stepNeighbor st current n).nodes current).visited = true) := by
        rcases hcur with h | ⟨h1, h2⟩
        · exact Or.inl h
        · exact Or.inr ⟨h1, hmono current h2⟩
      obtain ⟨hinv3, hmono2⟩ := ih (stepNeighbor st current n)
        (fun x hx => hl x (List.mem_cons_of_mem _ hx)) hcur2 hinv2
      exact ⟨hinv3, fun x hx => hmono2 x (hmono x hx)⟩

theorem bfsLoop_inv (names : List String) (cm : CMap)
    (Hcm : ∀ x, ∀ n ∈ cm x, n = "gateway" ∨ n ∈ names) :
    ∀ (fuel : Nat) (st stf : TreeState),
      TreeInv names st → bfsLoop cm fuel st = some stf → TreeInv names stf := by
  intro fuel
  induction fuel with
  | zero =>
      intro st stf _ hrun
      cases hrun
  | succ fuel ih =>
      intro st stf hinv hrun
      cases hq : st.queue with
      | nil =>
          have heq : bfsLoop cm (fuel + 1) st = some st := by
            simp [bfsLoop, hq]
          rw [heq] at hrun
          injection hrun with hrun
          subst hrun
          exact hinv
      | cons current rest =>
          have heq : bfsLoop cm (fuel + 1) st =
              bfsLoop cm fuel
                (processList current (cm current) { st with queue := rest }) := by
            simp [bfsLoop, hq]
          rw [heq] at hrun
          obtain ⟨hr1, hq1, hc1, hg1⟩ := hinv
          have hcur : current = "gateway" ∨
              (current ∈ names ∧ (st.nodes current).visited = true) :=
            hq1 current (by rw [hq]; exact List.mem_cons_self current rest)
          have hinv2 : TreeInv names { st with queue := rest } := by
            refine ⟨hr1, ?_, hc1, hg1⟩
            intro q hq2
            exact hq1 q (by rw [hq]; exact List.mem_cons_of_mem _ hq2)
          obtain ⟨hinv3, _⟩ := processList_inv names current (cm current)
            { st with queue := rest } (fun n hn => Hcm current n hn) hcur hinv2
          exact ih _ stf hinv3 hrun

theorem parentIter_succ (p2 : Planner) (k : Nat) (n : String) :
    parentIter p2 (k + 1) n =
      match parentOf p2 n with
      | none => none
      | some q => parentIter p2 k q := rfl

theorem parentIter_chain (p2 : Planner) (names : List String) (r : String → Nat)
    (hgwn : "gateway" ∉ names)
    (hr : ∀ n ∈ names, ∀ q, (p2.nodes n).parent = some q →
      q = "gateway" ∨ (q ∈ names ∧ r q < r n)) :
    ∀ k, ∀ n ∈ names, ∀ m, parentIter p2 (k + 1) n = some m →
      m = "gateway" ∨ (m ∈ names ∧ r m < r n) := by
  intro k
  induction k with
  | zero =>
      intro n hn m hm
      have hng : n ≠ "gateway" := fun h => hgwn (h ▸ hn)
      rw [parentIter_succ] at hm
      simp only [parentOf, if_neg hng] at hm
      cases hp : (p2.nodes n).parent with
      | none => rw [hp] at hm; cases hm
      | some q =>
          rw [hp] at hm
          dsimp only at hm
          simp only [parentIter] at hm
          injection hm with hm
          subst hm
          exact hr n hn q hp
  | succ k ih =>
      intro n hn m hm
      have hng : n ≠ "gateway" := fun h => hgwn (h ▸ hn)
      rw [parentIter_succ] at hm
      simp only [parentOf, if_neg hng] at hm
      cases hp : (p2.nodes n).parent with
      | none => rw [hp] at hm; cases hm
      | some q =>
          rw [hp] at hm
          dsimp only at hm
          rcases hr n hn q hp with hq | ⟨hqn, hlt⟩
          · subst hq
            rw [parentIter_succ] at hm
            simp [parentOf] at hm
          · rcases ih q hqn m hm with h | ⟨h1, h2⟩
            · exact Or.inl h
            · exact Or.inr ⟨h1, h2.trans hlt⟩

/-- C3: for every tree produced by the capacitated tree builder, no stored
node's parent is itself, no stored node is its own ancestor, and every child
list — of the stored nodes and of the gateway — holds at most 4 entries,
because a neighbour is attached only while the current node's child count is
strictly below the cap. -/
theorem c3_tree_invariants (fuel : Nat) (cm : CMap) (p p2 : Planner)
    (unr : List String)
    (Hcm : ∀ x, ∀ n ∈ cm x, n = "gateway" ∨ n ∈ p.names)
    (hgwn : "gateway" ∉ p.names)
    (hrun : find_best_tree fuel cm p = some (p2, some unr)) :
    (∀ n ∈ p.names, (p2.nodes n).parent ≠ some n) ∧
    (∀ n ∈ p.names, ∀ k, parentIter p2 (k + 1) n ≠ some n) ∧
    (∀ n ∈ p.names, (p2.nodes n).children.length ≤ 4) ∧
    (∀ g, p2.gateway = some g → g.children.length ≤ 4) := by
  cases hg : p.gateway with
  | none =>
      rw [find_best_tree, hg] at hrun
      simp at hrun
  | some gw =>
      rw [find_best_tree, hg] at hrun
      dsimp only at hrun
      cases hb : bfsLoop cm fuel
          { nodes := (reset_node_states p).nodes, gwChildren := [],
            queue := ["gateway"], visited_count := 0 } with
      | none =>
          rw [hb] at hrun
          dsimp only at hrun
          cases hrun
      | some stf =>
          rw [hb] at hrun
          dsimp only at hrun
          simp only [Option.some.injEq, Prod.mk.injEq] at hrun
          obtain ⟨hp2, -⟩ := hrun
          have hinit : TreeInv p.names
              { nodes := (reset_node_states p).nodes, gwChildren := [],
                queue := ["gateway"], visited_count := 0 } := by
            refine ⟨⟨fun _ => 0, ?_⟩, ?_, ?_, by simp⟩
            · intro n hn q hp
              simp [reset_node_states, hn, resetNodeFields] at hp
            · intro q hq
              simp at hq
              exact Or.inl hq
            · intro n hn
              simp [reset_node_states, hn, resetNodeFields]
          have hfin : TreeInv p.names stf := bfsLoop_inv p.names cm Hcm fuel _ stf hinit hb
          obtain ⟨⟨r, hrank⟩, -, hcap, hgcap⟩ := hfin
          have hnodes : p2.nodes = stf.nodes := by rw [← hp2]
          have hgw2 : p2.gateway = some { gw with children := stf.gwChildren } := by
            rw [← hp2]
          have hr2 : ∀ n ∈ p.names, ∀ q, (p2.nodes n).parent = some q →
              q = "gateway" ∨ (q ∈ p.names ∧ r q < r n) := by
            intro n hn q hp
            rw [hnodes] at hp
            rcases (hrank n hn q hp).2 with h | ⟨h1, _, h3⟩
            · exact Or.inl h
            · exact Or.inr ⟨h1, h3⟩
          refine ⟨?_, ?_, ?_, ?_⟩
          · intro n hn heq
            rcases hr2 n hn n heq with h | ⟨-, h2⟩
            · exact hgwn (h ▸ hn)
            · exact absurd h2 (lt_irrefl _)
          · intro n hn k hiter
            rcases parentIter_chain p2 p.names r hgwn hr2 k n hn n hiter with h | ⟨-, h2⟩
            · exact hgwn (h ▸ hn)
            · exact absurd h2 (lt_irrefl _)
          · intro n hn
            rw [hnodes]
            exact hcap n hn
          · intro g hgeq
            rw [hgw2] at hgeq
            injection hgeq with hgeq
            rw [← hgeq]
            exact hgcap

theorem cmW3_range : ∀ x, ∀ n ∈ cmW3 x, n = "gateway" ∨ n ∈ pW3.names := by
  intro x n hn
  simp only [cmW3] at hn
  split at hn
  · simp at hn
    rcases hn with rfl | rfl
    · right; decide
    · right; decide
  · split at hn
    · simp at hn
      rcases hn with rfl | rfl
      · left; rfl
      · right; decide
    · split at hn
      · simp at hn
        rcases hn with rfl | rfl
        · left; rfl
        · right; decide
      · simp at hn

theorem c3_witness :
    (pW3res.nodes "A").parent ≠ some "A" ∧
    parentIter pW3res 1 "A" ≠ some "A" ∧
    parentIter pW3res 2 "A" ≠ some "A" ∧
    (pW3res.nodes "A").children.length ≤ 4 := by
  have h := c3_tree_invariants 10 cmW3 pW3 pW3res pW3unr cmW3_range (by decide) rfl
  exact ⟨h.1 "A" (by decide), h.2.1 "A" (by decide) 0, h.2.1 "A" (by decide) 1,
    h.2.2.1 "A" (by decide)⟩

/-- C4 is false on this code: the gateway's child cap is hardcoded to 4
(line 203), not unlimited.  With five direct-eligible gateway neighbours the
builder attaches only the first four; E stays unreachable although the edge
gateway-E exists in the graph. -/
theorem c4_counterexample :
    (pC4run.map fun x => x.2) = some (some ["E"]) ∧
    (pC4run.map fun x => x.1.gateway.map GatewayRec.children) =
      some (some ["A", "B", "C", "D"]) ∧
    "E" ∈ cmC4 "gateway" :=
  ⟨by decide, by decide, by decide⟩

/-- C4 (amended): the gateway's child cap in this code is the hardcoded
constant 4: a neighbour is attached to the gateway only while the gateway's
child count is strictly below 4, so every produced tree gives the gateway at
most 4 children. -/
theorem c4_amended_gateway_cap (fuel : Nat) (cm : CMap) (p p2 : Planner)
    (unr : List String)
    (Hcm : ∀ x, ∀ n ∈ cm x, n = "gateway" ∨ n ∈ p.names)
    (hrun : find_best_tree fuel cm p = some (p2, some unr)) :
    ∀ g, p2.gateway = some g → g.children.length ≤ 4 := by
  cases hg : p.gateway with
  | none =>
      rw [find_best_tree, hg] at hrun
      simp at hrun
  | some gw =>
      rw [find_best_tree, hg] at hrun
      dsimp only at hrun
      cases hb : bfsLoop cm fuel
          { nodes := (reset_node_states p).nodes, gwChildren := [],
            queue := ["gateway"], visited_count := 0 } with
      | none =>
          rw [hb] at hrun
          dsimp only at hrun
          cases hrun
      | some stf =>
          rw [hb] at hrun
          dsimp only at hrun
          simp only [Option.some.injEq, Prod.mk.injEq] at hrun
          obtain ⟨hp2, -⟩ := hrun
          have hinit : TreeInv p.names
              { nodes := (reset_node_states p).nodes, gwChildren := [],
                queue := ["gateway"], visited_count := 0 } := by
            refine ⟨⟨fun _ => 0, ?_⟩, ?_, ?_, by simp⟩
            · intro n hn q hp
              simp [reset_node_states, hn, resetNodeFields] at hp
            · intro q hq
              simp at hq
              exact Or.inl hq
            · intro n hn
              simp [reset_node_states, hn, resetNodeFields]
          have hfin : TreeInv p.names stf := bfsLoop_inv p.names cm Hcm fuel _ stf hinit hb
          intro g hgeq
          have hgw2 : p2.gateway = some { gw with children := stf.gwChildren } := by
            rw [← hp2]
          rw [hgw2] at hgeq
          injection hgeq with hgeq
          rw [← hgeq]
          exact hfin.2.2.2

theorem c4_amended_witness :
    ({ children := ["A", "B"] } : GatewayRec).children.length ≤ 4 :=
  c4_amended_gateway_cap 10 cmW3 pW3 pW3res pW3unr cmW3_range rfl
    { children := ["A", "B"] } rfl

theorem assignLoop_ok_spec
    (pool0 : List Nat) (h0 : pool0.Nodup)
    (pt : String → Option String) (ch : String → List String)
    (Hc : ∀ q n, n ∈ ch q → pt n = some q)
    (Hgw : ∀ q, "gateway" ∉ ch q)
    (Hchnd : ∀ q, (ch q).Nodup) :
    ∀ (fuel : Nat) (nodes : String → NodeRec) (pool : List Nat) (queue : List String)
      (P : String → Prop),
      (∀ n, (nodes n).parent = pt n) →
      (∀ n, (nodes n).children = ch n) →
      List.Sublist pool pool0 →
      (∀ q ∈ queue, ∃ pq, pt q = some pq ∧ (pq = "gateway" ∨ P pq) ∧ pq ∉ queue ∧
        (if pq = "gateway" then (some 3 : Option Nat) else (nodes pq).freq_down) ≠ none) →
      (∀ n, P n → ∃ pn, pt n = some pn ∧ pn ∉ queue ∧ (pn = "gateway" ∨ P pn)) →
      (∀ n, P n → ∃ pn, pt n = some pn ∧
        (nodes n).freq_up =
          (if pn = "gateway" then (some 3 : Option Nat) else (nodes pn).freq_down) ∧
        (nodes n).freq_up ≠ none) →
      (∀ n, ¬ P n → (nodes n).freq_up = none ∧ (nodes n).freq_down = none) →
      queue.Nodup →
      (∀ q ∈ queue, ¬ P q) →
      "gateway" ∉ queue →
      (∀ n v, (nodes n).freq_down = some v → v ∈ pool0 ∧ v ∉ pool) →
      (∀ n m v, n ≠ m → (nodes n).freq_down = some v → (nodes m).freq_down ≠ some v) →
      ∀ (nf : String → NodeRec) (poolf : List Nat),
        assignLoop (some 3) fuel nodes pool queue = some (Except.ok (nf, poolf)) →
        (∀ n, (nf n).freq_up ≠ none → ∃ pn, pt n = some pn ∧
          (nf n).freq_up =
            (if pn = "gateway" then (some 3 : Option Nat) else (nf pn).freq_down)) ∧
        (∀ n v, (nf n).freq_down = some v → v ∈ pool0) ∧
        (∀ n m v, n ≠ m → (nf n).freq_down = some v → (nf m).freq_down ≠ some v) := by
  intro fuel
  induction fuel with
  | zero =>
      intro nodes pool queue P _ _ _ _ _ _ _ _ _ _ _ _ nf poolf hrun
      cases hrun
  | succ fuel ih =>
      intro nodes pool queue P hSP hSC hPL hE hC hA hU hQ1 hQ2 hQ3 hD5 hD4 nf poolf hrun
      cases queue with
      | nil =>
          simp only [assignLoop, Option.some.injEq, Except.ok.injEq, Prod.mk.injEq] at hrun
          obtain ⟨hnf, -⟩ := hrun
          subst hnf
          refine ⟨?_, fun n v h => (hD5 n v h).1, hD4⟩
          intro n hne
          by_cases hPn : P n
          · obtain ⟨pn, h1, h2, -⟩ := hA n hPn
            exact ⟨pn, h1, h2⟩
          · exact absurd (hU n hPn).1 hne
      | cons current rest =>
          obtain ⟨pq, hpq, hpqP, hpqnq, hpd⟩ := hE current (List.mem_cons_self current rest)
          have hpar : (nodes current).parent = some pq := by rw [hSP]; exact hpq
          have hcng : current ≠ "gateway" := by
            intro h
            exact hQ3 (h ▸ List.mem_cons_self current rest)
          have hcnP : ¬ P current := hQ2 current (List.mem_cons_self current rest)
          have hcnrest : current ∉ rest := (List.nodup_cons.mp hQ1).1
          have hccc : current ∉ ch current := by
            intro hmem
            have h2 := Hc current current hmem
            rw [hpq] at h2
            injection h2 with h2
            rcases hpqP with h | h
            · exact hcng (h2 ▸ h)
            · exact hcnP (h2 ▸ h)
          have hNotInCh : ∀ x, (x = "gateway" ∨ P x) → x ∉ ch current := by
            intro x hx hmem
            have hptx := Hc current x hmem
            rcases hx with rfl | hx
            · exact Hgw current hmem
            · obtain ⟨p2, hp2, hn2, -⟩ := hC x hx
              rw [hptx] at hp2
              injection hp2 with hp2
              exact hn2 (hp2 ▸ List.mem_cons_self current rest)
          -- unfold one loop iteration
          simp only [assignLoop] at hrun
          rw [hpar] at hrun
          dsimp only at hrun
          rw [setNode_same] at hrun
          dsimp only at hrun
          set FU : Option Nat :=
            if pq = "gateway" then (some 3 : Option Nat) else (nodes pq).freq_down with hFU
          set R1 : NodeRec :=
            { lat := (nodes current).lat, lon := (nodes current).lon,
              direct_to_gw := (nodes current).direct_to_gw, parent := some pq,
              children := (nodes current).children, freq_up := FU,
              freq_down := (nodes current).freq_down,
              visited := (nodes current).visited } with hR1
          set nodes1 : String → NodeRec := setNode nodes current R1 with hn1
          have f1p : ∀ x, (nodes1 x).parent = (nodes x).parent := by
            intro x
            by_cases hx : x = current
            · rw [hx, hn1, setNode_same, hR1]
              exact hpar.symm
            · rw [hn1, setNode_ne _ _ _ hx]
          have f1c : ∀ x, (nodes1 x).children = (nodes x).children := by
            intro x
            by_cases hx : x = current
            · rw [hx, hn1, setNode_same, hR1]
            · rw [hn1, setNode_ne _ _ _ hx]
          have f1d : ∀ x, (nodes1 x).freq_down = (nodes x).freq_down := by
            intro x
            by_cases hx : x = current
            · rw [hx, hn1, setNode_same, hR1]
            · rw [hn1, setNode_ne _ _ _ hx]
          have f1u : ∀ x, x ≠ current → (nodes1 x).freq_up = (nodes x).freq_up := by
            intro x hx
            rw [hn1, setNode_ne _ _ _ hx]
          have f1uc : (nodes1 current).freq_up = FU := by
            rw [hn1, setNode_same, hR1]
          have hpqc : pq ≠ current := by
            intro h
            exact hpqnq (h ▸ List.mem_cons_self current rest)
          by_cases hcc : (nodes current).children = []
          · -- no children: no frequency drawn
            rw [if_neg (by simp [hcc])] at hrun
            rw [show rest ++ (nodes current).children = rest from by
              rw [hcc, List.append_nil]] at hrun
            refine ih nodes1 pool rest (fun x => P x ∨ x = current)
              (fun n => (f1p n).trans (hSP n)) (fun n => (f1c n).trans (hSC n)) hPL
              ?_ ?_ ?_ ?_ hQ1.of_cons ?_ (fun hh => hQ3 (List.mem_cons_of_mem _ hh))
              ?_ ?_ nf poolf hrun
            · intro q hq
              obtain ⟨pq2, h1, h2, h3, h4⟩ := hE q (List.mem_cons_of_mem _ hq)
              refine ⟨pq2, h1, h2.imp_right Or.inl,
                fun hh => h3 (List.mem_cons_of_mem _ hh), ?_⟩
              rw [f1d pq2]
              exact h4
            · intro n hn
              rcases hn with hn | rfl
              · obtain ⟨pn, h1, h2, h3⟩ := hC n hn
                exact ⟨pn, h1, fun hh => h2 (List.mem_cons_of_mem _ hh),
                  h3.imp_right Or.inl⟩
              · exact ⟨pq, hpq, fun hh => hpqnq (List.mem_cons_of_mem _ hh),
                  hpqP.imp_right Or.inl⟩
            · intro n hn
              rcases hn with hn | rfl
              · obtain ⟨pn, h1, h2, h3⟩ := hA n hn
                have hnc : n ≠ current := fun hh => hcnP (hh ▸ hn)
                refine ⟨pn, h1, ?_, ?_⟩
                · rw [f1u n hnc, h2]
                  by_cases hpg : pn = "gateway"
                  · simp [hpg]
                  · simp [hpg, f1d]
                · rw [f1u n hnc]
                  exact h3
              · refine ⟨pq, hpq, ?_, ?_⟩
                · rw [f1uc, hFU]
                  by_cases hpg : pq = "gateway"
                  · simp [hpg]
                  · simp [hpg, f1d]
                · rw [f1uc]
                  exact hpd
            · intro n hn
              obtain ⟨hn1b, hn2b⟩ := not_or.mp hn
              rw [f1u n hn2b, f1d n]
              exact hU n hn1b
            · intro q hq
              refine not_or.mpr ⟨hQ2 q (List.mem_cons_of_mem _ hq), ?_⟩
              intro hh
              exact hcnrest (hh ▸ hq)
            · intro n v h
              rw [f1d n] at h
              exact hD5 n v h
            · intro n m v hnm h1
              rw [f1d n] at h1
              rw [f1d m]
              exact hD4 n m v hnm h1
          · -- children present: draw a frequency from the pool
            rw [if_pos hcc] at hrun
            cases pool with
            | nil => simp at hrun
            | cons f poolRest =>
                dsimp only at hrun
                rw [setNode_same] at hrun
                dsimp only at hrun
                set R2 : NodeRec :=
                  { lat := (nodes current).lat, lon := (nodes current).lon,
                    direct_to_gw := (nodes current).direct_to_gw, parent := some pq,
                    children := (nodes current).children, freq_up := FU,
                    freq_down := some f,
                    visited := (nodes current).visited } with hR2
                set nodes2 : String → NodeRec := setNode nodes1 current R2 with hn2
                have f2p : ∀ x, (nodes2 x).parent = (nodes x).parent := by
                  intro x
                  by_cases hx : x = current
                  · rw [hx, hn2, setNode_same, hR2]
                    exact hpar.symm
                  · rw [hn2, setNode_ne _ _ _ hx]
                    exact f1p x
                have f2c : ∀ x, (nodes2 x).children = (nodes x).children := by
                  intro x
                  by_cases hx : x = current
                  · rw [hx, hn2, setNode_same, hR2]
                  · rw [hn2, setNode_ne _ _ _ hx]
                    exact f1c x
                have f2d : ∀ x, x ≠ current → (nodes2 x).freq_down = (nodes x).freq_down := by
                  intro x hx
                  rw [hn2, setNode_ne _ _ _ hx]
                  exact f1d x
                have f2dc : (nodes2 current).freq_down = some f := by
                  rw [hn2, setNode_same, hR2]
                have f2u : ∀ x, x ≠ current → (nodes2 x).freq_up = (nodes x).freq_up := by
                  intro x hx
                  rw [hn2, setNode_ne _ _ _ hx]
                  exact f1u x hx
                have f2uc : (nodes2 current).freq_up = FU := by
                  rw [hn2, setNode_same, hR2]
                have hpoolnd : (f :: poolRest).Nodup := h0.sublist hPL
                have hfrest : f ∉ poolRest := (List.nodup_cons.mp hpoolnd).1
                have hfpool : f ∈ f :: poolRest := List.mem_cons_self f poolRest
                have hfpool0 : f ∈ pool0 := hPL.subset hfpool
                rw [show rest ++ (nodes current).children = rest ++ ch current from by
                  rw [hSC current]] at hrun
                refine ih nodes2 poolRest (rest ++ ch current) (fun x => P x ∨ x = current)
                  (fun n => (f2p n).trans (hSP n)) (fun n => (f2c n).trans (hSC n))
                  ((List.sublist_cons_self f poolRest).trans hPL)
                  ?_ ?_ ?_ ?_ ?_ ?_ ?_ ?_ ?_ nf poolf hrun
                · intro q hq
                  rcases List.mem_append.mp hq with hq | hq
                  · obtain ⟨pq2, h1, h2, h3, h4⟩ := hE q (List.mem_cons_of_mem _ hq)
                    have hpq2c : pq2 ≠ current := by
                      intro hh
                      exact h3 (hh ▸ List.mem_cons_self current rest)
                    refine ⟨pq2, h1, h2.imp_right Or.inl, ?_, ?_⟩
                    · intro hh
                      rcases List.mem_append.mp hh with hh | hh
                      · exact h3 (List.mem_cons_of_mem _ hh)
                      · exact hNotInCh pq2 h2 hh
                    · by_cases hpg : pq2 = "gateway"
                      · rw [if_pos hpg]
                        simp
                      · rw [if_neg hpg, f2d pq2 hpq2c]
                        rw [if_neg hpg] at h4
                        exact h4
                  · refine ⟨current, Hc current q hq, Or.inr (Or.inr rfl), ?_, ?_⟩
                    · intro hh
                      rcases List.mem_append.mp hh with hh | hh
                      · exact hcnrest hh
                      · exact hccc hh
                    · rw [if_neg hcng, f2dc]
                      simp
                · intro n hn
                  rcases hn with hn | rfl
                  · obtain ⟨pn, h1, h2, h3⟩ := hC n hn
                    refine ⟨pn, h1, ?_, h3.imp_right Or.inl⟩
                    intro hh
                    rcases List.mem_append.mp hh with hh | hh
                    · exact h2 (List.mem_cons_of_mem _ hh)
                    · exact hNotInCh pn h3 hh
                  · refine ⟨pq, hpq, ?_, hpqP.imp_right Or.inl⟩
                    intro hh
                    rcases List.mem_append.mp hh with hh | hh
                    · exact hpqnq (List.mem_cons_of_mem _ hh)
                    · exact hNotInCh pq hpqP hh
                · intro n hn
                  rcases hn with hn | rfl
                  · obtain ⟨pn, h1, h2, h3⟩ := hA n hn
                    have hnc : n ≠ current := fun hh => hcnP (hh ▸ hn)
                    obtain ⟨pn2, hc1, hc2, -⟩ := hC n hn
                    rw [h1] at hc1
                    injection hc1 with hc1
                    have hpnc : pn ≠ current := by
                      intro hh
                      exact hc2 (hc1 ▸ hh ▸ List.mem_cons_self current rest)
                    refine ⟨pn, h1, ?_, ?_⟩
                    · rw [f2u n hnc, h2]
                      by_cases hpg : pn = "gateway"
                      · simp [hpg]
                      · simp [hpg, f2d pn hpnc]
                    · rw [f2u n hnc]
                      exact h3
                  · refine ⟨pq, hpq, ?_, ?_⟩
                    · rw [f2uc, hFU]
                      by_cases hpg : pq = "gateway"
                      · simp [hpg]
                      · simp [hpg, f2d pq hpqc]
                    · rw [f2uc]
                      exact hpd
                · intro n hn
                  obtain ⟨hn1b, hn2b⟩ := not_or.mp hn
                  rw [f2u n hn2b, f2d n hn2b]
                  exact hU n hn1b
                · refine hQ1.of_cons.append (Hchnd current) ?_
                  intro x hx1 hx2
                  obtain ⟨px, he1, he2, -, -⟩ := hE x (List.mem_cons_of_mem _ hx1)
                  have hptx := Hc current x hx2
                  rw [hptx] at he1
                  injection he1 with he1
                  rcases he2 with he2 | he2
                  · exact hcng (he1 ▸ he2)
                  · exact hcnP (he1 ▸ he2)
                · intro q hq
                  rcases List.mem_append.mp hq with hq | hq
                  · refine not_or.mpr ⟨hQ2 q (List.mem_cons_of_mem _ hq), ?_⟩
                    intro hh
                    exact hcnrest (hh ▸ hq)
                  · refine not_or.mpr ⟨?_, ?_⟩
                    · intro hPq
                      obtain ⟨p2, hp2, hn2b, -⟩ := hC q hPq
                      have hptq := Hc current q hq
                      rw [hptq] at hp2
                      injection hp2 with hp2
                      exact hn2b (hp2 ▸ List.mem_cons_self current rest)
                    · intro hh
                      exact hccc (hh ▸ hq)
                · intro hh
                  rcases List.mem_append.mp hh with hh | hh
                  · exact hQ3 (List.mem_cons_of_mem _ hh)
                  · exact Hgw current hh
                · intro n v h
                  by_cases hnc : n = current
                  · rw [hnc, f2dc] at h
                    injection h with h
                    rw [← h]
                    exact ⟨hfpool0, hfrest⟩
                  · rw [f2d n hnc] at h
                    refine ⟨(hD5 n v h).1, ?_⟩
                    intro hh
                    exact (hD5 n v h).2 ((List.sublist_cons_self f poolRest).subset hh)
                · intro n m v hnm h1
                  by_cases hnc : n = current
                  · rw [hnc, f2dc] at h1
                    injection h1 with h1
                    have hmc : m ≠ current := fun hh => hnm (hnc.trans hh.symm)
                    rw [f2d m hmc]
                    intro hcontra
                    rw [← h1] at hcontra
                    exact (hD5 m f hcontra).2 hfpool
                  · by_cases hmc : m = current
                    · rw [f2d n hnc] at h1
                      rw [hmc, f2dc]
                      intro hcontra
                      injection hcontra with hcontra
                      rw [← hcontra] at h1
                      exact (hD5 n f h1).2 hfpool
                    · rw [f2d n hnc] at h1
                      rw [f2d m hmc]
                      exact hD4 n m v hnm h1

/-- C2: after a frequency assignment that completes without exhaustion (on a
well-formed, freshly reset tree), every node reached by the walk has its
uplink frequency equal to its parent's downlink frequency — the gateway's
downlink being the preset constant 3 — and every downlink frequency drawn
from the pool is assigned to at most one node in the run: all assigned
downlinks come from the pool and no two of them collide. -/
theorem c2_freq_invariants (fuel : Nat) (p p2 : Planner) (gw : GatewayRec)
    (hg : p.gateway = some gw)
    (Hc : ∀ q n, n ∈ (p.nodes q).children → (p.nodes n).parent = some q)
    (Hcg : ∀ n ∈ gw.children, (p.nodes n).parent = some "gateway")
    (Hgw : ∀ q, "gateway" ∉ (p.nodes q).children)
    (Hgwg : "gateway" ∉ gw.children)
    (Hchnd : ∀ q, ((p.nodes q).children).Nodup)
    (Hgnd : gw.children.Nodup)
    (Hclean : ∀ n, (p.nodes n).freq_up = none ∧ (p.nodes n).freq_down = none)
    (Hpool : p.available_frequencies.Nodup)
    (hrun : assign_frequencies fuel p = some (Except.ok p2)) :
    p2.gateway = some { gw with freq_down := some 3 } ∧
    (∀ n, (p2.nodes n).freq_up ≠ none → ∃ pn, (p.nodes n).parent = some pn ∧
      (p2.nodes n).freq_up =
        (if pn = "gateway" then (some 3 : Option Nat) else (p2.nodes pn).freq_down)) ∧
    (∀ n v, (p2.nodes n).freq_down = some v → v ∈ p.available_frequencies) ∧
    (∀ n m v, n ≠ m → (p2.nodes n).freq_down = some v →
      (p2.nodes m).freq_down ≠ some v) := by
  rw [assign_frequencies, hg] at hrun
  dsimp only at hrun
  cases hb : assignLoop (some 3) fuel p.nodes p.available_frequencies gw.children with
  | none =>
      rw [hb] at hrun
      cases hrun
  | some res =>
      rw [hb] at hrun
      cases res with
      | error e => simp at hrun
      | ok pr =>
          obtain ⟨nf, poolf⟩ := pr
          dsimp only at hrun
          simp only [Option.some.injEq, Except.ok.injEq] at hrun
          obtain ⟨hcl1, hcl2, hcl3⟩ := assignLoop_ok_spec p.available_frequencies Hpool
            (fun n => (p.nodes n).parent) (fun n => (p.nodes n).children)
            Hc Hgw Hchnd fuel p.nodes p.available_frequencies gw.children
            (fun _ => False) (fun n => rfl) (fun n => rfl) (List.Sublist.refl _)
            (fun q hq => ⟨"gateway", Hcg q hq, Or.inl rfl, Hgwg, by simp⟩)
            (fun n hn => hn.elim) (fun n hn => hn.elim)
            (fun n _ => Hclean n) Hgnd (fun q _ h => h) Hgwg
            (fun n v h => by rw [(Hclean n).2] at h; cases h)
            (fun n m v _ h1 => by rw [(Hclean n).2] at h1; cases h1)
            nf poolf hb
          have hnodes : p2.nodes = nf := by rw [← hrun]
          refine ⟨by rw [← hrun], ?_, ?_, ?_⟩
          · intro n hne
            rw [hnodes] at hne
            obtain ⟨pn, h1, h2⟩ := hcl1 n hne
            refine ⟨pn, h1, ?_⟩
            rw [hnodes]
            exact h2
          · intro n v h
            rw [hnodes] at h
            exact hcl2 n v h
          · intro n m v hnm h1
            rw [hnodes] at h1 ⊢
            exact hcl3 n m v hnm h1

theorem c2_witness :
    pW2res.gateway = some { children := ["N1"], freq_down := some 3 } ∧
    (∃ pn, (pW2.nodes "N2").parent = some pn ∧
      (pW2res.nodes "N2").freq_up =
        (if pn = "gateway" then (some 3 : Option Nat) else (pW2res.nodes pn).freq_down)) ∧
    (pW2res.nodes "N2").freq_down ≠ some 16 := by
  have hHc : ∀ q n, n ∈ (pW2.nodes q).children → (pW2.nodes n).parent = some q := by
    intro q n hn
    by_cases h1 : q = "N1"
    · subst h1
      simp [pW2] at hn
      subst hn
      decide
    · by_cases h2 : q = "N2"
      · subst h2
        simp [pW2] at hn
      · simp [pW2, h1, h2] at hn
  have hHgw : ∀ q, "gateway" ∉ (pW2.nodes q).children := by
    intro q
    by_cases h1 : q = "N1"
    · subst h1; decide
    · by_cases h2 : q = "N2"
      · subst h2; decide
      · simp [pW2, h1, h2]
  have hHchnd : ∀ q, ((pW2.nodes q).children).Nodup := by
    intro q
    by_cases h1 : q = "N1"
    · subst h1; decide
    · by_cases h2 : q = "N2"
      · subst h2; decide
      · simp [pW2, h1, h2]
  have hHclean : ∀ n, (pW2.nodes n).freq_up = none ∧ (pW2.nodes n).freq_down = none := by
    intro n
    by_cases h1 : n = "N1"
    · subst h1; decide
    · by_cases h2 : n = "N2"
      · subst h2; decide
      · simp [pW2, h1, h2]
  have h := c2_freq_invariants 10 pW2 pW2res { children := ["N1"] } rfl hHc
    (by intro n hn; simp at hn; subst hn; decide)
    hHgw (by decide) hHchnd (by decide) hHclean (by decide) rfl
  exact ⟨h.1, h.2.1 "N2" (by decide), h.2.2.2 "N1" "N2" 16 (by decide) (by decide)⟩

end Routing
